import Mathlib

/-!
Verification of the 40 MHz submarine RC transmitter: a shallow embedding of `SubMarine_40.680mHz.ino`.  The program bit-bangs an
OOK pulse train through a clock-generator carrier:

* `sendPulses`   emits `pulseCount` pulses of one pulse type, as a list of
  carrier actions (enable / disable / microsecond waits);
* `sendFrame`    emits one 16-bit frame: 2 SYNC pulses, 16 data pulses
  (MSB first, LONG for a set bit, SHORT for a clear bit), 1 trailing SHORT;
* `sendStop`     sends the fixed stop frame `0xFF00`;
* `sendCommand`  encodes a command byte into a redundant 16-bit frame,
  transmits it twice 35 ms apart, retransmits while a millisecond clock is
  below `start + hold_time_ms`, then sends the stop frame three times.

Real time is modelled by a `Timing` oracle giving the clock advance of each
`delay(35)` and of each frame transmission; the hold loop takes explicit
fuel and returns `none` when the fuel runs out before the deadline passes.
-/

/-- Mirrors `struct SubmarinePulseType { bool enableWait; long waitDuration; }`. -/
structure SubmarinePulseType where
  enableWait : Bool
  waitDuration : Int
deriving DecidableEq

/-- Mirrors `const SubmarinePulseType PULSE_SHORT{false, 0};`. -/
def PULSE_SHORT : SubmarinePulseType := ⟨false, 0⟩

/-- Mirrors `const SubmarinePulseType PULSE_LONG{true, 450};`. -/
def PULSE_LONG : SubmarinePulseType := ⟨true, 450⟩

/-- Mirrors `const SubmarinePulseType PULSE_SYNC{true, 900};`. -/
def PULSE_SYNC : SubmarinePulseType := ⟨true, 900⟩

/-- Mirrors `enum class SubmarineCommand : uint8_t`. -/
inductive SubmarineCommand where
  | STOP | FORWARD | BACK | LEFT | RIGHT | UP | DOWN | CMD1 | CMD2
deriving DecidableEq

/-- The `uint8_t` value of each enumerator. -/
def SubmarineCommand.raw : SubmarineCommand → Nat
  | .STOP => 0x00
  | .FORWARD => 0x01
  | .BACK => 0x02
  | .LEFT => 0x04
  | .RIGHT => 0x08
  | .UP => 0x10
  | .DOWN => 0x20
  | .CMD1 => 0x40
  | .CMD2 => 0x80

/-- One observable action on the carrier hardware: an output-enable toggle or
a blocking wait (`delayMicroseconds` / `delay`). -/
inductive CarrierAction where
  | enable
  | disable
  | waitMicros (d : Int)
  | waitMillis (d : Nat)
deriving DecidableEq

/-- Trace of `Submarine::sendPulses(SubmarinePulseType pulseType, int pulseCount)`:
if `pulseType.enableWait`, each loop iteration enables the output, waits
`waitDuration` µs, disables it and waits again; otherwise each iteration
enables then immediately disables the output.  The C `for (int i = 0;
i < pulseCount; i++)` runs `pulseCount.toNat` times (0 times when
`pulseCount ≤ 0`). -/
def sendPulses (pulseType : SubmarinePulseType) (pulseCount : Int) :
    List CarrierAction :=
  if pulseType.enableWait then
    (List.replicate pulseCount.toNat
      [CarrierAction.enable, CarrierAction.waitMicros pulseType.waitDuration,
       CarrierAction.disable, CarrierAction.waitMicros pulseType.waitDuration]).flatten
  else
    (List.replicate pulseCount.toNat
      [CarrierAction.enable, CarrierAction.disable]).flatten

/-- The data-bit loop of `Submarine::sendFrame`: for 16 iterations it calls
`sendPulses((currentPosition & frame) > 0 ? PULSE_LONG : PULSE_SHORT, 1)`
and shifts `currentPosition` right by one.  Returned as the list of
`(pulseType, pulseCount)` arguments passed to `sendPulses`. -/
def sendFrameLoop (frame : Nat) : Nat → Nat → List (SubmarinePulseType × Int)
  | _, 0 => []
  | currentPosition, n + 1 =>
      ((if currentPosition &&& frame > 0 then PULSE_LONG else PULSE_SHORT), 1) ::
        sendFrameLoop frame (currentPosition >>> 1) n

/-- The ordered `sendPulses` calls of `Submarine::sendFrame(uint16_t frame)`:
`sendPulses(PULSE_SYNC, 2)`, the 16-iteration bit loop starting at
`currentPosition = 0x8000`, then `sendPulses(PULSE_SHORT, 1)`. -/
def sendFrameCalls (frame : Nat) : List (SubmarinePulseType × Int) :=
  (PULSE_SYNC, (2 : Int)) ::
    (sendFrameLoop frame 0x8000 16 ++ [(PULSE_SHORT, (1 : Int))])

/-- Trace of `Submarine::sendFrame`: the carrier-action trace of its `sendPulses`
calls in order. -/
def sendFrame (frame : Nat) : List CarrierAction :=
  (sendFrameCalls frame).flatMap fun c => sendPulses c.1 c.2

/-- The individual pulse emissions of `sendFrame`: each `sendPulses(p, n)`
call emits `n` pulses of type `p`. -/
def framePulses (frame : Nat) : List SubmarinePulseType :=
  (sendFrameCalls frame).flatMap fun c => List.replicate c.2.toNat c.1

/-- Trace of `Submarine::sendStop()`: it calls `sendFrame(0xFF00)`. -/
def sendStop : List CarrierAction :=
  sendFrame 0xFF00

/-- The frame built at the top of `Submarine::sendCommand`:
`uint8_t lsB = command; uint8_t msB = ~lsB; uint16_t frame = (msB << 8) | lsB;`
(8-bit complement `~lsB` is `lsB ^^^ 0xFF`). -/
def encodeFrame (command : SubmarineCommand) : Nat :=
  let lsB := command.raw
  let msB := lsB ^^^ 0xFF
  (msB <<< 8) ||| lsB

example : encodeFrame SubmarineCommand.FORWARD = 0xFE01 := by decide
example : encodeFrame SubmarineCommand.STOP = 0xFF00 := by decide

/-- Frame-level transmission events of `sendCommand`: a `sendFrame f` call or
a `delay(d)` call. -/
inductive TxEvent where
  | frame (f : Nat)
  | delayMs (d : Nat)
deriving DecidableEq

/-- Timing oracle for the millisecond clock `millis()`: how many ms the clock
advances across one `delay(d)` call and across one `sendFrame f` call. -/
structure Timing where
  delayAdv : Nat → Nat
  frameAdv : Nat → Nat

/-- The `while (millis() < (start_time + hold_time_ms)) { delay(35);
sendFrame(frame); }` loop of `Submarine::sendCommand`, with the deadline
`start_time + hold_time_ms` precomputed.  `clock` is the current `millis()`
value; `fuel` bounds the number of iterations, and the loop returns `none`
when the fuel runs out before the deadline passes, so that `some` results
are exactly the terminating runs. -/
def holdLoop (T : Timing) (frame deadline : Nat) :
    Nat → Nat → Option (List TxEvent × Nat)
  | 0, clock => if clock < deadline then none else some ([], clock)
  | fuel + 1, clock =>
      if clock < deadline then
        match holdLoop T frame deadline fuel
            (clock + T.delayAdv 35 + T.frameAdv frame) with
        | none => none
        | some (evs, fin) =>
            some (TxEvent.delayMs 35 :: TxEvent.frame frame :: evs, fin)
      else some ([], clock)

/-- Trace of `Submarine::sendCommand(SubmarineCommand command, long hold_time_ms)`:
build `frame` from `command`, record `start_time = millis()`, send the frame,
`delay(35)`, send it again, run the hold loop, then three times `delay(35);
sendStop();`.  Returns the frame-level event trace and the final clock, or
`none` when the hold-loop fuel is insufficient. -/
def sendCommand (T : Timing) (command : SubmarineCommand)
    (hold_time_ms : Nat) (fuel clock0 : Nat) :
    Option (List TxEvent × Nat) :=
  let frame := encodeFrame command
  let start_time := clock0
  let c1 := clock0 + T.frameAdv frame
  let c2 := c1 + T.delayAdv 35
  let c3 := c2 + T.frameAdv frame
  match holdLoop T frame (start_time + hold_time_ms) fuel c3 with
  | none => none
  | some (loopEvs, c4) =>
      some ([TxEvent.frame frame, TxEvent.delayMs 35, TxEvent.frame frame]
              ++ loopEvs
              ++ (List.replicate 3
                    [TxEvent.delayMs 35, TxEvent.frame 0xFF00]).flatten,
            c4 + 3 * (T.delayAdv 35 + T.frameAdv 0xFF00))

/-- Idealised timing: `delay(d)` advances the clock by exactly `d` ms and a
frame transmission is instantaneous. -/
def unitTiming : Timing :=
  { delayAdv := fun d => d, frameAdv := fun _ => 0 }

/-- Carrier-enable state after running a list of carrier actions, starting
from state `s` (`true` = carrier on). -/
def carrierAfter (actions : List CarrierAction) (s : Bool) : Bool :=
  actions.foldl
    (fun st a =>
      match a with
      | CarrierAction.enable => true
      | CarrierAction.disable => false
      | _ => st) s

/-- Carrier actions of a frame-level event: a frame event performs
`sendFrame`, a delay event only waits. -/
def txActions : TxEvent → List CarrierAction
  | TxEvent.frame f => sendFrame f
  | TxEvent.delayMs d => [CarrierAction.waitMillis d]

example :
    sendCommand unitTiming SubmarineCommand.FORWARD 0 1 0 =
      some ([TxEvent.frame 0xFE01, TxEvent.delayMs 35, TxEvent.frame 0xFE01,
             TxEvent.delayMs 35, TxEvent.frame 0xFF00,
             TxEvent.delayMs 35, TxEvent.frame 0xFF00,
             TxEvent.delayMs 35, TxEvent.frame 0xFF00], 140) := by decide

/-- The carrier actions of a single pulse of type `p`: timed on/off phases
when `p.enableWait`, an immediate on/off toggle otherwise. -/
def pulseActionBlock (p : SubmarinePulseType) : List CarrierAction :=
  if p.enableWait then
    [CarrierAction.enable, CarrierAction.waitMicros p.waitDuration,
     CarrierAction.disable, CarrierAction.waitMicros p.waitDuration]
  else
    [CarrierAction.enable, CarrierAction.disable]

/-- Unfolding lemma: the bit loop of `sendFrame` emits, for `i < n`, a LONG
pulse call when `(pos >>> i) &&& frame` is positive and a SHORT pulse call
otherwise. -/
theorem sendFrameLoop_eq_map (frame : Nat) :
    ∀ n pos, sendFrameLoop frame pos n =
      (List.range n).map fun i =>
        ((if pos >>> i &&& frame > 0 then PULSE_LONG else PULSE_SHORT),
          (1 : Int)) := by
  intro n
  induction n with
  | zero => intro pos; simp [sendFrameLoop]
  | succ n ih =>
      intro pos
      rw [sendFrameLoop, ih (pos >>> 1), List.range_succ_eq_map,
        List.map_cons, List.map_map]
      have htail :
          (List.range n).map
              ((fun i =>
                  ((if pos >>> i &&& frame > 0 then PULSE_LONG
                      else PULSE_SHORT), (1 : Int))) ∘ Nat.succ) =
            (List.range n).map fun i =>
              ((if pos >>> 1 >>> i &&& frame > 0 then PULSE_LONG
                  else PULSE_SHORT), (1 : Int)) := by
        refine List.map_congr_left ?_
        intro i _
        simp only [Function.comp_apply, Nat.succ_eq_add_one,
          Nat.add_comm i 1, Nat.shiftRight_add]
      rw [htail]
      simp

/-- A power-of-two mask tests exactly one bit. -/
theorem two_pow_and_pos (k n : Nat) :
    0 < 2 ^ k &&& n ↔ n.testBit k = true := by
  rw [Nat.two_pow_and]
  cases h : n.testBit k <;>
    simp [h, Nat.pos_pow_of_pos]

/-- Shifting `0x8000 >>> i` gives the single-bit mask for bit `15 - i`. -/
theorem shift_32768 (i : Nat) (h : i < 16) : 32768 >>> i = 2 ^ (15 - i) := by
  rw [show (32768 : Nat) = 2 ^ 15 by norm_num, Nat.shiftRight_eq_div_pow,
    Nat.pow_div (by omega) (by norm_num)]

/-- Pulse-count-one `sendPulses` call lists expand to one pulse each. -/
theorem flatMap_pulse_one {α : Type} (l : List α)
    (g : α → SubmarinePulseType) :
    ((l.map fun x => (g x, (1 : Int))).flatMap fun c =>
        List.replicate c.2.toNat c.1) = l.map g := by
  induction l with
  | nil => rfl
  | cons a l ih => rw [List.map_cons, List.flatMap_cons, ih]; rfl

/-- C1: For every 16-bit frame value, `sendFrame` emits exactly 19 pulse
emissions in a fixed order: first 2 SYNC pulses, then 16 data pulses taken
from the frame's bits most-significant-first (a LONG pulse when the bit is
1, a SHORT pulse when the bit is 0), then 1 trailing SHORT pulse. -/
theorem sendFrame_pulse_sequence (frame : Nat) :
    framePulses frame =
      [PULSE_SYNC, PULSE_SYNC]
        ++ ((List.range 16).map fun i =>
              if frame.testBit (15 - i) then PULSE_LONG else PULSE_SHORT)
        ++ [PULSE_SHORT]
    ∧ (framePulses frame).length = 19 := by
  have hcond :
      ((List.range 16).map fun i =>
          if 0x8000 >>> i &&& frame > 0 then PULSE_LONG else PULSE_SHORT) =
        (List.range 16).map fun i =>
          if frame.testBit (15 - i) then PULSE_LONG else PULSE_SHORT := by
    refine List.map_congr_left ?_
    intro i hi
    have hi16 : i < 16 := List.mem_range.mp hi
    rw [shift_32768 i hi16]
    by_cases hb : frame.testBit (15 - i) = true
    · rw [if_pos ((two_pow_and_pos (15 - i) frame).mpr hb), if_pos hb]
    · rw [if_neg (fun hp => hb ((two_pow_and_pos (15 - i) frame).mp hp)),
        if_neg hb]
  have hmain :
      framePulses frame =
        [PULSE_SYNC, PULSE_SYNC]
          ++ ((List.range 16).map fun i =>
                if frame.testBit (15 - i) then PULSE_LONG else PULSE_SHORT)
          ++ [PULSE_SHORT] := by
    rw [framePulses, sendFrameCalls, List.flatMap_cons, List.flatMap_append,
      sendFrameLoop_eq_map frame 16 0x8000,
      flatMap_pulse_one (List.range 16)
        (fun i => if 0x8000 >>> i &&& frame > 0 then PULSE_LONG
          else PULSE_SHORT),
      hcond]
    simp [List.append_assoc]
  refine ⟨hmain, ?_⟩
  rw [hmain]
  simp

example :
    framePulses 0xFD02 =
      [PULSE_SYNC, PULSE_SYNC,
       PULSE_LONG, PULSE_LONG, PULSE_LONG, PULSE_LONG,
       PULSE_LONG, PULSE_LONG, PULSE_SHORT, PULSE_LONG,
       PULSE_SHORT, PULSE_SHORT, PULSE_SHORT, PULSE_SHORT,
       PULSE_SHORT, PULSE_SHORT, PULSE_LONG, PULSE_SHORT,
       PULSE_SHORT] := by decide

/-- C6: for every pulse class and every repetition count, `sendPulses`
performs, per repetition, the block `pulseActionBlock`: timed
enable/wait/disable/wait when the class uses an explicit wait, and an
immediate enable/disable otherwise. -/
theorem sendPulses_per_repetition (p : SubmarinePulseType) (count : Int) :
    sendPulses p count =
      (List.replicate count.toNat (pulseActionBlock p)).flatten := by
  cases h : p.enableWait <;> simp [sendPulses, pulseActionBlock, h]

/-- C10: a non-positive pulse count emits nothing: no carrier toggles and
no waits. -/
theorem sendPulses_nonpositive (p : SubmarinePulseType) (count : Int)
    (h : count ≤ 0) : sendPulses p count = [] := by
  cases hw : p.enableWait <;>
    simp [sendPulses, hw, Int.toNat_of_nonpos h]

/-- C10 witness: `sendPulses(PULSE_SHORT, -3)` emits nothing. -/
theorem sendPulses_nonpositive_witness :
    sendPulses PULSE_SHORT (-3) = [] :=
  sendPulses_nonpositive PULSE_SHORT (-3) (by decide)

/-- C3: for every command, the encoded frame's low byte is the command's
raw bitmask value and its high byte is the bitwise complement of that low
byte. -/
theorem encodeFrame_bytes (c : SubmarineCommand) :
    encodeFrame c % 256 = c.raw
      ∧ encodeFrame c >>> 8 = (encodeFrame c % 256) ^^^ 0xFF := by
  cases c <;> exact ⟨by decide, by decide⟩

/-- C4 counterexample: encoding the Stop command yields `0xFF00`, not
`0x0000`, and it is not distinct from the stop-frame constant `0xFF00`. -/
theorem encode_stop_counterexample :
    encodeFrame SubmarineCommand.STOP ≠ 0x0000
      ∧ encodeFrame SubmarineCommand.STOP = 0xFF00 := by
  exact ⟨by decide, by decide⟩

/-- The hold loop exits immediately, with any fuel, once the deadline has
passed. -/
theorem holdLoop_exit (T : Timing) (f deadline fuel clock : Nat)
    (h : deadline ≤ clock) :
    holdLoop T f deadline fuel clock = some ([], clock) := by
  cases fuel <;> simp [holdLoop, Nat.not_lt.mpr h]

/-- One iteration of the hold loop while the deadline lies ahead. -/
theorem holdLoop_step (T : Timing) (f deadline fuel clock : Nat)
    (h : clock < deadline) :
    holdLoop T f deadline (fuel + 1) clock =
      match holdLoop T f deadline fuel
          (clock + T.delayAdv 35 + T.frameAdv f) with
      | none => none
      | some (evs, fin) =>
          some (TxEvent.delayMs 35 :: TxEvent.frame f :: evs, fin) := by
  simp [holdLoop, h]

/-- Soundness of the hold loop: a completed run performs some number `n` of
wait-then-retransmit iterations, entering each iteration exactly when the
clock is still below the deadline, and stops at the first clock value at or
past the deadline. -/
theorem holdLoop_sound (T : Timing) (f deadline : Nat) :
    ∀ fuel clock evs fin,
      holdLoop T f deadline fuel clock = some (evs, fin) →
        ∃ n : Nat,
          evs = (List.replicate n
                  [TxEvent.delayMs 35, TxEvent.frame f]).flatten
            ∧ fin = clock + n * (T.delayAdv 35 + T.frameAdv f)
            ∧ (∀ i < n,
                clock + i * (T.delayAdv 35 + T.frameAdv f) < deadline)
            ∧ deadline ≤ fin := by
  intro fuel
  induction fuel with
  | zero =>
      intro clock evs fin h
      rcases Nat.lt_or_ge clock deadline with hc | hc
      · rw [holdLoop, if_pos hc] at h
        exact absurd h (by simp)
      · rw [holdLoop_exit T f deadline 0 clock hc] at h
        simp only [Option.some.injEq, Prod.mk.injEq] at h
        obtain ⟨hevs, hfin⟩ := h
        refine ⟨0, ?_, ?_, ?_, ?_⟩
        · rw [← hevs]; rfl
        · omega
        · intro i hi; omega
        · omega
  | succ fuel ih =>
      intro clock evs fin h
      rcases Nat.lt_or_ge clock deadline with hc | hc
      · rw [holdLoop_step T f deadline fuel clock hc] at h
        cases hrec : holdLoop T f deadline fuel
            (clock + T.delayAdv 35 + T.frameAdv f) with
        | none => rw [hrec] at h; exact absurd h (by simp)
        | some p =>
            obtain ⟨evs0, fin0⟩ := p
            rw [hrec] at h
            simp only [Option.some.injEq, Prod.mk.injEq] at h
            obtain ⟨hevs, hfin⟩ := h
            obtain ⟨n, he, hf, hlt, hge⟩ := ih _ _ _ hrec
            refine ⟨n + 1, ?_, ?_, ?_, ?_⟩
            · rw [← hevs, he, List.replicate_succ, List.flatten_cons]
              rfl
            · rw [← hfin, hf]; ring
            · intro i hi
              cases i with
              | zero => simpa using hc
              | succ j =>
                  have hj : j < n := by omega
                  have := hlt j hj
                  have harith :
                      clock + (j + 1) * (T.delayAdv 35 + T.frameAdv f) =
                        clock + T.delayAdv 35 + T.frameAdv f
                          + j * (T.delayAdv 35 + T.frameAdv f) := by ring
                  rw [harith]
                  exact this
            · omega
      · rw [holdLoop_exit T f deadline (fuel + 1) clock hc] at h
        simp only [Option.some.injEq, Prod.mk.injEq] at h
        obtain ⟨hevs, hfin⟩ := h
        refine ⟨0, ?_, ?_, ?_, ?_⟩
        · rw [← hevs]; rfl
        · omega
        · intro i hi; omega
        · omega

/-- C2: every completed `sendCommand` run transmits the encoded frame, waits
35 ms, transmits it a second time, then performs some number `n` of hold
iterations (each a 35 ms wait followed by a retransmission), entering an
iteration exactly while the elapsed clock is below `start + hold_time_ms`,
and finally transmits the stop frame `0xFF00` three times, each preceded by
a 35 ms wait. -/
theorem sendCommand_sequence (T : Timing) (cmd : SubmarineCommand)
    (hold fuel clock0 : Nat) (evs : List TxEvent) (fin : Nat)
    (h : sendCommand T cmd hold fuel clock0 = some (evs, fin)) :
    ∃ n : Nat,
      evs =
        [TxEvent.frame (encodeFrame cmd), TxEvent.delayMs 35,
         TxEvent.frame (encodeFrame cmd)]
          ++ (List.replicate n
                [TxEvent.delayMs 35, TxEvent.frame (encodeFrame cmd)]).flatten
          ++ (List.replicate 3
                [TxEvent.delayMs 35, TxEvent.frame 0xFF00]).flatten
        ∧ (∀ i < n,
            clock0 + T.frameAdv (encodeFrame cmd) + T.delayAdv 35
                + T.frameAdv (encodeFrame cmd)
                + i * (T.delayAdv 35 + T.frameAdv (encodeFrame cmd))
              < clock0 + hold)
        ∧ clock0 + hold ≤
            clock0 + T.frameAdv (encodeFrame cmd) + T.delayAdv 35
              + T.frameAdv (encodeFrame cmd)
              + n * (T.delayAdv 35 + T.frameAdv (encodeFrame cmd)) := by
  simp only [sendCommand] at h
  cases hl : holdLoop T (encodeFrame cmd) (clock0 + hold) fuel
      (clock0 + T.frameAdv (encodeFrame cmd) + T.delayAdv 35
        + T.frameAdv (encodeFrame cmd)) with
  | none => rw [hl] at h; exact absurd h (by simp)
  | some p =>
      obtain ⟨loopEvs, c4⟩ := p
      rw [hl] at h
      simp only [Option.some.injEq, Prod.mk.injEq] at h
      obtain ⟨hevs, hfin⟩ := h
      obtain ⟨n, he, hf, hlt, hge⟩ := holdLoop_sound T (encodeFrame cmd)
        (clock0 + hold) fuel _ loopEvs c4 hl
      refine ⟨n, ?_, hlt, ?_⟩
      · rw [← hevs, he]
      · rw [← hf]
        exact hge

/-- C2 witness: `sendCommand(FORWARD, 100)` under unit timing. -/
theorem sendCommand_sequence_witness :
    ∃ n : Nat,
      [TxEvent.frame 65025, TxEvent.delayMs 35, TxEvent.frame 65025,
       TxEvent.delayMs 35, TxEvent.frame 65025,
       TxEvent.delayMs 35, TxEvent.frame 65025,
       TxEvent.delayMs 35, TxEvent.frame 65280,
       TxEvent.delayMs 35, TxEvent.frame 65280,
       TxEvent.delayMs 35, TxEvent.frame 65280] =
        [TxEvent.frame 65025, TxEvent.delayMs 35, TxEvent.frame 65025]
          ++ (List.replicate n
                [TxEvent.delayMs 35, TxEvent.frame 65025]).flatten
          ++ (List.replicate 3
                [TxEvent.delayMs 35, TxEvent.frame 65280]).flatten
        ∧ (∀ i < n, 35 + i * 35 < 100)
        ∧ 100 ≤ 35 + n * 35 :=
  sendCommand_sequence unitTiming SubmarineCommand.FORWARD 100 3 0 _ 210
    (by decide)

/-- C5: when the hold duration is smaller than the time already elapsed by
the two mandatory initial transmissions (frame, 35 ms wait, frame), the
hold loop body never executes, yet the call still produces the two initial
frame transmissions followed by exactly three stop-frame transmissions. -/
theorem sendCommand_short_hold (T : Timing) (cmd : SubmarineCommand)
    (hold fuel clock0 : Nat)
    (h : hold < T.frameAdv (encodeFrame cmd) + T.delayAdv 35
          + T.frameAdv (encodeFrame cmd)) :
    sendCommand T cmd hold fuel clock0 =
      some ([TxEvent.frame (encodeFrame cmd), TxEvent.delayMs 35,
             TxEvent.frame (encodeFrame cmd),
             TxEvent.delayMs 35, TxEvent.frame 0xFF00,
             TxEvent.delayMs 35, TxEvent.frame 0xFF00,
             TxEvent.delayMs 35, TxEvent.frame 0xFF00],
            clock0 + T.frameAdv (encodeFrame cmd) + T.delayAdv 35
              + T.frameAdv (encodeFrame cmd)
              + 3 * (T.delayAdv 35 + T.frameAdv 0xFF00)) := by
  simp only [sendCommand]
  rw [holdLoop_exit T (encodeFrame cmd) (clock0 + hold) fuel
    (clock0 + T.frameAdv (encodeFrame cmd) + T.delayAdv 35
      + T.frameAdv (encodeFrame cmd)) (by omega)]
  rfl

/-- C5 witness: `sendCommand(FORWARD, 0)` still sends the two initial
frames and three stop frames. -/
theorem sendCommand_short_hold_witness :
    sendCommand unitTiming SubmarineCommand.FORWARD 0 7 0 =
      some ([TxEvent.frame 65025, TxEvent.delayMs 35, TxEvent.frame 65025,
             TxEvent.delayMs 35, TxEvent.frame 65280,
             TxEvent.delayMs 35, TxEvent.frame 65280,
             TxEvent.delayMs 35, TxEvent.frame 65280], 140) := by
  rw [sendCommand_short_hold unitTiming SubmarineCommand.FORWARD 0 7 0
    (by decide)]
  rfl

/-- C7: with 35 ms inter-frame spacing (instantaneous frames), a
`sendCommand(FORWARD, 100)` call performs the two initial transmissions,
then `n` hold retransmissions with `2 ≤ n ≤ 3`, then the three stop
frames. -/
theorem sendCommand_forward_hold100 (T : Timing) (fuel clock0 : Nat)
    (hD : T.delayAdv 35 = 35) (hF : ∀ f, T.frameAdv f = 0)
    (hfuel : 2 ≤ fuel) :
    ∃ n : Nat,
      sendCommand T SubmarineCommand.FORWARD 100 fuel clock0 =
        some ([TxEvent.frame (encodeFrame SubmarineCommand.FORWARD),
               TxEvent.delayMs 35,
               TxEvent.frame (encodeFrame SubmarineCommand.FORWARD)]
                ++ (List.replicate n
                      [TxEvent.delayMs 35,
                       TxEvent.frame
                         (encodeFrame SubmarineCommand.FORWARD)]).flatten
                ++ (List.replicate 3
                      [TxEvent.delayMs 35, TxEvent.frame 0xFF00]).flatten,
              clock0 + 210)
        ∧ 2 ≤ n ∧ n ≤ 3 := by
  refine ⟨2, ?_, by omega, by omega⟩
  obtain ⟨m, rfl⟩ : ∃ m, fuel = m + 1 + 1 := ⟨fuel - 2, by omega⟩
  have hloop :
      holdLoop T (encodeFrame SubmarineCommand.FORWARD) (clock0 + 100)
          (m + 1 + 1) (clock0 + 35) =
        some ([TxEvent.delayMs 35,
               TxEvent.frame (encodeFrame SubmarineCommand.FORWARD),
               TxEvent.delayMs 35,
               TxEvent.frame (encodeFrame SubmarineCommand.FORWARD)],
              clock0 + 105) := by
    rw [holdLoop_step T _ (clock0 + 100) (m + 1) (clock0 + 35) (by omega),
      hD, hF]
    rw [show clock0 + 35 + 35 + 0 = clock0 + 70 by omega]
    rw [holdLoop_step T _ (clock0 + 100) m (clock0 + 70) (by omega), hD, hF]
    rw [show clock0 + 70 + 35 + 0 = clock0 + 105 by omega]
    rw [holdLoop_exit T _ (clock0 + 100) m (clock0 + 105) (by omega)]
  simp only [sendCommand, hD, hF, Nat.add_zero]
  rw [hloop]
  exact congrArg some (Prod.ext rfl (by show clock0 + 105 + 3 * 35 = clock0 + 210; omega))

/-- C7 witness: the idealised 35 ms-spacing run at clock 0. -/
theorem sendCommand_forward_hold100_witness :
    ∃ n : Nat,
      sendCommand unitTiming SubmarineCommand.FORWARD 100 2 0 =
        some ([TxEvent.frame 65025, TxEvent.delayMs 35, TxEvent.frame 65025]
                ++ (List.replicate n
                      [TxEvent.delayMs 35, TxEvent.frame 65025]).flatten
                ++ (List.replicate 3
                      [TxEvent.delayMs 35, TxEvent.frame 65280]).flatten,
              210)
        ∧ 2 ≤ n ∧ n ≤ 3 :=
  sendCommand_forward_hold100 unitTiming 2 0 rfl (fun _ => rfl) (by decide)

/-- Fuel sufficiency for the hold loop: when each `delay(35)` advances the
clock by at least 35 ms, any fuel covering the remaining time completes the
loop. -/
theorem holdLoop_total (T : Timing) (f deadline : Nat)
    (hT : 35 ≤ T.delayAdv 35) :
    ∀ fuel clock, deadline ≤ clock + 35 * fuel →
      ∃ evs fin, holdLoop T f deadline fuel clock = some (evs, fin) := by
  intro fuel
  induction fuel with
  | zero =>
      intro clock hcl
      exact ⟨[], clock, holdLoop_exit T f deadline 0 clock (by omega)⟩
  | succ fuel ih =>
      intro clock hcl
      rcases Nat.lt_or_ge clock deadline with hc | hc
      · obtain ⟨evs, fin, hrec⟩ :=
          ih (clock + T.delayAdv 35 + T.frameAdv f) (by omega)
        refine ⟨TxEvent.delayMs 35 :: TxEvent.frame f :: evs, fin, ?_⟩
        rw [holdLoop_step T f deadline fuel clock hc, hrec]
      · exact ⟨[], clock, holdLoop_exit T f deadline (fuel + 1) clock hc⟩

/-- C9: under a clock model where the clock is non-decreasing (advances are
additive) and each `delay(35)` advances it by at least 35 ms, every
`sendCommand` call terminates: some finite fuel yields a completed run. -/
theorem sendCommand_terminates (T : Timing) (hT : 35 ≤ T.delayAdv 35)
    (cmd : SubmarineCommand) (hold clock0 : Nat) :
    ∃ fuel evs fin,
      sendCommand T cmd hold fuel clock0 = some (evs, fin) := by
  obtain ⟨evs, fin, h⟩ := holdLoop_total T (encodeFrame cmd)
    (clock0 + hold) hT (hold + 1)
    (clock0 + T.frameAdv (encodeFrame cmd) + T.delayAdv 35
      + T.frameAdv (encodeFrame cmd))
    (by omega)
  refine ⟨hold + 1,
    [TxEvent.frame (encodeFrame cmd), TxEvent.delayMs 35,
     TxEvent.frame (encodeFrame cmd)] ++ evs
      ++ (List.replicate 3
            [TxEvent.delayMs 35, TxEvent.frame 0xFF00]).flatten,
    fin + 3 * (T.delayAdv 35 + T.frameAdv 0xFF00), ?_⟩
  simp only [sendCommand]
  rw [h]

/-- C9 witness: a concrete terminating run. -/
theorem sendCommand_terminates_witness :
    ∃ fuel evs fin,
      sendCommand unitTiming SubmarineCommand.UP 3000 fuel 0 =
        some (evs, fin) :=
  sendCommand_terminates unitTiming (by decide) SubmarineCommand.UP 3000 0

/-- Folding the carrier state distributes over list append. -/
theorem carrierAfter_append (xs ys : List CarrierAction) (s : Bool) :
    carrierAfter (xs ++ ys) s = carrierAfter ys (carrierAfter xs s) := by
  simp [carrierAfter]

/-- A repeated block that leaves the carrier disabled keeps it disabled. -/
theorem carrierAfter_flatten_replicate (m : Nat)
    (block : List CarrierAction)
    (hb : carrierAfter block false = false) :
    carrierAfter (List.replicate m block).flatten false = false := by
  induction m with
  | zero => rfl
  | succ m ih =>
      rw [List.replicate_succ, List.flatten_cons, carrierAfter_append, hb]
      exact ih

/-- Every `sendPulses` call that starts with the carrier disabled leaves it
disabled. -/
theorem carrierAfter_sendPulses (p : SubmarinePulseType) (n : Int) :
    carrierAfter (sendPulses p n) false = false := by
  cases hw : p.enableWait <;>
    · simp only [sendPulses, hw, Bool.false_eq_true, if_false, if_true]
      exact carrierAfter_flatten_replicate _ _ rfl

/-- Every `sendFrame` call that starts with the carrier disabled leaves it
disabled. -/
theorem carrierAfter_sendFrame (f : Nat) :
    carrierAfter (sendFrame f) false = false := by
  rw [sendFrame]
  generalize sendFrameCalls f = calls
  induction calls with
  | nil => rfl
  | cons c cs ih =>
      rw [List.flatMap_cons, carrierAfter_append, carrierAfter_sendPulses]
      exact ih

/-- The carrier actions of any frame-level event list leave a disabled
carrier disabled. -/
theorem carrierAfter_txList (evs : List TxEvent) :
    carrierAfter (evs.flatMap txActions) false = false := by
  induction evs with
  | nil => rfl
  | cons e es ih =>
      rw [List.flatMap_cons, carrierAfter_append]
      cases e with
      | frame f =>
          simp only [txActions]
          rw [carrierAfter_sendFrame]
          exact ih
      | delayMs d => exact ih

/-- C8: starting from a disabled carrier, every `sendPulses` call, every
`sendFrame` call, the `sendStop` call, and the full action trace of every
completed `sendCommand` run return with the carrier disabled. -/
theorem carrier_disabled_after :
    (∀ (p : SubmarinePulseType) (n : Int),
        carrierAfter (sendPulses p n) false = false)
      ∧ (∀ f : Nat, carrierAfter (sendFrame f) false = false)
      ∧ carrierAfter sendStop false = false
      ∧ (∀ (T : Timing) (cmd : SubmarineCommand)
            (hold fuel clock0 : Nat) (evs : List TxEvent) (fin : Nat),
          sendCommand T cmd hold fuel clock0 = some (evs, fin) →
            carrierAfter (evs.flatMap txActions) false = false) :=
  ⟨carrierAfter_sendPulses, carrierAfter_sendFrame,
    carrierAfter_sendFrame 0xFF00,
    fun _ _ _ _ _ evs _ _ => carrierAfter_txList evs⟩

/-- C8 witness: the carrier is disabled after a concrete `sendCommand`
run. -/
theorem carrier_disabled_after_witness :
    carrierAfter
      ([TxEvent.frame 65025, TxEvent.delayMs 35, TxEvent.frame 65025,
        TxEvent.delayMs 35, TxEvent.frame 65280, TxEvent.delayMs 35,
        TxEvent.frame 65280, TxEvent.delayMs 35,
        TxEvent.frame 65280].flatMap txActions) false = false :=
  carrier_disabled_after.2.2.2 unitTiming SubmarineCommand.FORWARD 0 1 0 _
    140 (by decide)

/-- C4 (amended): encoding the Stop command yields exactly the dedicated
stop-frame constant `0xFF00`; `sendStop` transmits `sendFrame 0xFF00`, and
every completed `sendCommand` run ends with the three `0xFF00` stop-frame
transmissions, so the stop path coincides with encoding Stop. -/
theorem stop_frame_amended :
    encodeFrame SubmarineCommand.STOP = 0xFF00
      ∧ sendStop = sendFrame 0xFF00
      ∧ (∀ (T : Timing) (cmd : SubmarineCommand)
            (hold fuel clock0 : Nat) (evs : List TxEvent) (fin : Nat),
          sendCommand T cmd hold fuel clock0 = some (evs, fin) →
            (List.replicate 3
              [TxEvent.delayMs 35, TxEvent.frame 0xFF00]).flatten.IsSuffix
              evs) := by
  refine ⟨by decide, rfl, ?_⟩
  intro T cmd hold fuel clock0 evs fin h
  simp only [sendCommand] at h
  cases hl : holdLoop T (encodeFrame cmd) (clock0 + hold) fuel
      (clock0 + T.frameAdv (encodeFrame cmd) + T.delayAdv 35
        + T.frameAdv (encodeFrame cmd)) with
  | none => rw [hl] at h; exact absurd h (by simp)
  | some p =>
      obtain ⟨loopEvs, c4⟩ := p
      rw [hl] at h
      simp only [Option.some.injEq, Prod.mk.injEq] at h
      obtain ⟨hevs, _⟩ := h
      exact ⟨[TxEvent.frame (encodeFrame cmd), TxEvent.delayMs 35,
              TxEvent.frame (encodeFrame cmd)] ++ loopEvs,
        by rw [← hevs]⟩

/-- C4 amended-claim witness: the stop frames end a concrete run. -/
theorem stop_frame_amended_witness :
    (List.replicate 3
      [TxEvent.delayMs 35, TxEvent.frame 0xFF00]).flatten.IsSuffix
      [TxEvent.frame 65025, TxEvent.delayMs 35, TxEvent.frame 65025,
       TxEvent.delayMs 35, TxEvent.frame 65280, TxEvent.delayMs 35,
       TxEvent.frame 65280, TxEvent.delayMs 35, TxEvent.frame 65280] :=
  stop_frame_amended.2.2 unitTiming SubmarineCommand.FORWARD 0 1 0 _ 140
    (by decide)
